import Mathlib

set_option autoImplicit false

/-!
Verification development for the extraction engine of the SB-HACKATHON
repository (`extractor.py`, plus the selector-merge block of `app.py`).

The Python code is shallowly embedded:
* a parsed BeautifulSoup document is the inductive tree `Node` (HTML
  parsing by lxml is an external collaborator; the embedding starts from
  the parsed tree, which is the spec's `Document` data model);
* Python dicts are association lists with first-hit lookup and
  update-in-place-or-append assignment (`dget` / `dictSet`);
* the regexes `CURRENCY_RE` and `NUMBER_RE` are embedded as executable
  leftmost-search matchers with Python's greedy/backtracking semantics,
  specialised to those two patterns (note that in the source the
  quantifier `{1,3}` sits *inside* a character class, so `{`, `}`, `1`,
  `3`, `,` are literal class members);
* `\d` and `\s` are modelled as ASCII digits and ASCII whitespace, and
  `str.lower` as ASCII lowercasing (the claims only exercise ASCII plus
  currency symbols, which these functions leave unchanged);
* Python `float` on the de-comma'd regex match is modelled as an exact
  decimal parse into `ℚ` (`pyFloat`); on the reachable inputs the float
  parse succeeds exactly when `pyFloat` does;
* the CSS selector engine (soupsieve's `select_one`), the Gemini client
  and `json.loads` are external collaborators, passed in as oracle
  functions returning `Except` to model raised exceptions;
* `datetime.utcnow().isoformat()` is threaded in as an explicit `now`
  argument.
-/

/-! ## Character classes used by the source regexes -/

/-- Membership in Python's `\d` (modelled as ASCII digits). -/
def isDigitCh (c : Char) : Bool := c.isDigit

/-- Membership in the character class `[\d{1,3},]` of `NUMBER_RE` /
`CURRENCY_RE`: the quantifier braces are literal members of the class,
so the class is the digits together with `{`, `}` and `,`
(`1` and `3` are already digits). -/
def isNumClassCh (c : Char) : Bool :=
  c.isDigit || c = '\x7b' || c = '\x7d' || c = ','

/-- Membership in Python's `\s` (modelled as ASCII whitespace). -/
def isPySpace (c : Char) : Bool :=
  c = ' ' || c = '\t' || c = '\n' || c = '\r' || c = '\x0b' || c = '\x0c'

/-- The currency-symbol alternation `(\$|€|£|₹)` of `CURRENCY_RE`. -/
def isCurrencySym (c : Char) : Bool :=
  c = '$' || c = '€' || c = '£' || c = '₹'

/-- ASCII lowercasing of one character (models `str.lower` on the
characters the claims exercise). -/
def lowerCh (c : Char) : Char :=
  if 'A' ≤ c ∧ c ≤ 'Z' then Char.ofNat (c.toNat + 32) else c

def lowerCL (cs : List Char) : List Char := cs.map lowerCh

/-- Python `str.strip()` on a character list (whitespace modelled by
`isPySpace`). -/
def pyStripCL (cs : List Char) : List Char :=
  ((cs.dropWhile isPySpace).reverse.dropWhile isPySpace).reverse

def pyStripStr (s : String) : String := String.mk (pyStripCL s.data)

/-! ## Substring search (Python `in` and `str.find`) -/

/-- `startsWithCL hay needle`: `needle` is a prefix of `hay`. -/
def startsWithCL : List Char → List Char → Bool
  | _, [] => true
  | [], _ :: _ => false
  | h :: t, n :: m => h = n && startsWithCL t m

/-- Auxiliary for `findSub`: leftmost index (offset by `i`) at which
`needle` occurs in `hay`. -/
def findSubAux : List Char → List Char → Nat → Option Nat
  | hay, needle, i =>
    if startsWithCL hay needle then some i
    else
      match hay with
      | [] => none
      | _ :: t => findSubAux t needle (i + 1)

/-- Python `hay.find(needle)` (as `Option`): leftmost occurrence index. -/
def findSub (hay needle : List Char) : Option Nat := findSubAux hay needle 0

/-- Python `needle in hay`. -/
def containsSub (hay needle : List Char) : Bool := (findSub hay needle).isSome

/-! ## The embedded regex matchers

`NUMBER_RE = [\d{1,3},]*\d+(\.\d+)?` and
`CURRENCY_RE = (\$|€|£|₹)\s?[\d{1,3},]*\d+(\.\d+)?`.

With Python's leftmost search and greedy backtracking, the match of the
numeric tail anchored at a position works out to: take the maximal run
of class characters, cut it back to its last digit; if nothing was cut
and a literal `.` followed by digits follows the run, append that
fraction. -/

/-- Anchored match of `[\d{1,3},]*\d+(\.\d+)?` at the head of `cs`,
returning the matched prefix. -/
def matchNumAt (cs : List Char) : Option (List Char) :=
  let run := cs.takeWhile isNumClassCh
  let rest := cs.dropWhile isNumClassCh
  let run2 := (run.reverse.dropWhile (fun c => !c.isDigit)).reverse
  if run2.isEmpty then none
  else if run2.length = run.length then
    match rest with
    | [] => some run
    | c :: ds =>
      if c = '.' then
        let frac := ds.takeWhile isDigitCh
        if frac.isEmpty then some run else some (run ++ '.' :: frac)
      else some run
  else some run2

/-- `NUMBER_RE.search`: leftmost match, returned as the matched
character list. -/
def numSearch : List Char → Option (List Char)
  | [] => none
  | c :: cs =>
    match matchNumAt (c :: cs) with
    | some m => some m
    | none => numSearch cs

/-- A `CURRENCY_RE` match: `whole` is `group(0)`, `sym` is `group(1)`
(the single currency-symbol character). -/
structure CurMatch where
  whole : List Char
  sym : Char
deriving Repr, DecidableEq

/-- Anchored match of `CURRENCY_RE` at the head of `cs`.  The `\s?` is
greedy, but whenever the whitespace branch and the no-whitespace branch
are both enabled only one of them can reach the numeric tail (whitespace
is not in the numeric class), so trying them in either order is
equivalent. -/
def matchCurAt : List Char → Option CurMatch
  | [] => none
  | c :: cs =>
    if isCurrencySym c then
      match matchNumAt cs with
      | some m => some ⟨c :: m, c⟩
      | none =>
        match cs with
        | [] => none
        | w :: cs2 =>
          if isPySpace w then
            match matchNumAt cs2 with
            | some m => some ⟨c :: w :: m, c⟩
            | none => none
          else none
    else none

/-- `CURRENCY_RE.search`: leftmost match. -/
def curSearch : List Char → Option CurMatch
  | [] => none
  | c :: cs =>
    match matchCurAt (c :: cs) with
    | some m => some m
    | none => curSearch cs

/-! ## Python `float` on the de-comma'd match -/

/-- `s.replace(",", "")`. -/
def stripCommas (cs : List Char) : List Char := cs.filter (fun c => c ≠ ',')

/-- Value of a digit string (used only under the all-digit guard). -/
def digitsVal (ds : List Char) : ℚ :=
  ds.foldl (fun a c => 10 * a + ((c.toNat - 48 : Nat) : ℚ)) 0

/-- Python `float(s)` on the strings reachable here (digits, `.`, `{`,
`}` after comma removal): succeeds exactly on strings of digits and at
most one dot containing at least one digit, returning the exact decimal
value.  A brace makes `float` raise `ValueError`, modelled as `none`. -/
def pyFloat (cs : List Char) : Option ℚ :=
  if cs.all (fun c => c.isDigit || c = '.') && cs.any (fun c => c.isDigit)
      && cs.count '.' ≤ 1 then
    let intPart := cs.takeWhile isDigitCh
    let frac := (cs.dropWhile isDigitCh).drop 1
    some (digitsVal intPart + digitsVal frac / (10 ^ frac.length : ℚ))
  else none

/-! ## The parsed document tree (`BeautifulSoup` result) -/

inductive Node where
  | elem (tag : String) (attrs : List (String × String)) (children : List Node)
  | text (s : String)
deriving Repr

/-- All strings of text descendants, in document order
(bs4 `Tag._all_strings` without stripping). -/
def nodeTexts : Node → List String
  | Node.text s => [s]
  | Node.elem _ _ cs => nodeTextsList cs
where
  nodeTextsList : List Node → List String
  | [] => []
  | n :: ns => nodeTexts n ++ nodeTextsList ns

/-- bs4 `tag.get_text(" ", strip=True)`: each text segment stripped,
empty segments dropped, remaining segments joined with single spaces. -/
def getTextSpace (n : Node) : String :=
  String.intercalate " "
    (((nodeTexts n).map pyStripStr).filter (fun s => !s.isEmpty))

/-- bs4 `tag.text`: plain concatenation of the text descendants. -/
def nodeText (n : Node) : String := String.join (nodeTexts n)

/-- Attribute lookup, bs4 `tag.get(k)`. -/
def getAttr : Node → String → Option String
  | Node.elem _ attrs _, k => (attrs.find? (fun p => p.1 = k)).map Prod.snd
  | Node.text _, _ => none

def tagIs : Node → String → Bool
  | Node.elem t _ _, s => t = s
  | Node.text _, _ => false

/-- Multi-valued `class` attribute as bs4 stores it: the raw attribute
split on whitespace with empties dropped. -/
def splitWsAux : List Char → List Char → List String
  | [], acc => if acc.isEmpty then [] else [String.mk acc.reverse]
  | c :: cs, acc =>
    if isPySpace c then
      if acc.isEmpty then splitWsAux cs []
      else String.mk acc.reverse :: splitWsAux cs []
    else splitWsAux cs (c :: acc)

def splitWs (s : String) : List String := splitWsAux s.data []

def classList (n : Node) : List String :=
  match getAttr n "class" with
  | some v => splitWs v
  | none => []

/-- Preorder elements of the one-node forest `[n]`, the node itself
included when it is an element. -/
def elemsWith : Node → List Node
  | Node.text _ => []
  | Node.elem t a cs => Node.elem t a cs :: elemsWithList cs
where
  elemsWithList : List Node → List Node
  | [] => []
  | n :: ns => elemsWith n ++ elemsWithList ns

/-- All descendant elements of a node in document (preorder) order,
excluding the node itself — bs4's `descendants` restricted to tags,
which is the iteration order of `find` / `find_all`. -/
def elemsUnder (n : Node) : List Node :=
  match n with
  | Node.text _ => []
  | Node.elem _ _ cs => elemsWith.elemsWithList cs

/-- bs4 `soup.find(...)` with a predicate: first matching descendant
element in document order. -/
def findFirst (soup : Node) (p : Node → Bool) : Option Node :=
  (elemsUnder soup).find? p

/-! ## Python dicts as association lists -/

/-- `d[k]` lookup as bs4/Python would see it when `k` may be absent:
first pair with key `k`. -/
def dget {α : Type} (d : List (String × α)) (k : String) : Option α :=
  (d.find? (fun p => p.1 = k)).map Prod.snd

/-- Python `d[k] = v`: overwrite in place if present, else append
(insertion order preserved, as for a Python dict). -/
def dictSet {α : Type} (d : List (String × α)) (k : String) (v : α) :
    List (String × α) :=
  if (d.find? (fun p => p.1 = k)).isSome then
    d.map (fun p => if p.1 = k then (k, v) else p)
  else d ++ [(k, v)]

/-- Python `d.get(k)` on a dict whose values are optional strings:
an absent key and a `None` value both come back as `None`. -/
def pyGet (d : List (String × Option String)) (k : String) : Option String :=
  (dget d k).join

/-- Truthiness of a `str`-or-`None` value: `None` and `""` are falsy. -/
def truthyOpt : Option String → Bool
  | none => false
  | some s => !s.isEmpty

/-! ## JSON-like record values (the shape `normalize_fields` builds) -/

inductive JVal where
  | jnull : JVal
  | jstr (s : String) : JVal
  | jnum (q : ℚ) : JVal
  | jobj (fields : List (String × JVal)) : JVal
deriving Repr

def jOfStrOpt : Option String → JVal
  | none => JVal.jnull
  | some s => JVal.jstr s

def jOfNumOpt : Option ℚ → JVal
  | none => JVal.jnull
  | some q => JVal.jnum q

/-! ## `extractor.py`: heuristic inference -/

/-- `infer_title`, lines 57-72 of `extractor.py`: the meta-tag loop,
then `soup.title`, then the `h1`/`h2`/`h3` loop.  A meta tag whose
`content` is absent or empty lets the loop continue; a found `content`
is returned stripped (even if it strips to the empty string). -/
def infer_title (soup : Node) : Option String :=
  let metaOg := findFirst soup
    (fun n => tagIs n "meta" && getAttr n "property" = some "og:title")
  let metaTw := findFirst soup
    (fun n => tagIs n "meta" && getAttr n "name" = some "twitter:title")
  let tryMeta : Option Node → Option String := fun t =>
    match t with
    | some n =>
      match getAttr n "content" with
      | some c => if c.isEmpty then none else some (pyStripStr c)
      | none => none
    | none => none
  match tryMeta metaOg with
  | some r => some r
  | none =>
  match tryMeta metaTw with
  | some r => some r
  | none =>
  let titleTag := findFirst soup (fun n => tagIs n "title")
  let fromTitle : Option String :=
    match titleTag with
    | some t =>
      if (pyStripStr (nodeText t)).isEmpty then none
      else some (pyStripStr (nodeText t))
    | none => none
  match fromTitle with
  | some r => some r
  | none =>
  let tryHeading : String → Option String := fun tag =>
    match findFirst soup (fun n => tagIs n tag) with
    | some t =>
      if (pyStripStr (nodeText t)).isEmpty then none
      else some (pyStripStr (nodeText t))
    | none => none
  match tryHeading "h1" with
  | some r => some r
  | none =>
  match tryHeading "h2" with
  | some r => some r
  | none => tryHeading "h3"

/-- `has_price_keyword` from `infer_price`: any keyword is a substring
of the lowercased argument. -/
def has_price_keyword (s : String) : Bool :=
  ["price", "amount", "cost", "sale", "our-price"].any
    (fun k => containsSub (lowerCL s.data) k.data)

/-- One scan pass of `infer_price`: iterate candidate tags; on a tag
whose attribute string has a price keyword, return the first
`CURRENCY_RE` match of its visible text if any, otherwise keep
scanning. -/
def priceScan (tags : List Node) (attrStr : Node → String) : Option String :=
  match tags with
  | [] => none
  | t :: ts =>
    if has_price_keyword (attrStr t) then
      match curSearch (getTextSpace t).data with
      | some m => some (String.mk m.whole)
      | none => priceScan ts attrStr
    else priceScan ts attrStr

/-- `infer_price`, lines 75-99 of `extractor.py`: class-attribute scan,
then id-attribute scan, then first `CURRENCY_RE` match of the whole
document's visible text.  `find_all(True, attrs={"class": True})` /
`attrs={"id": True}` are modelled as presence of the attribute (for the
scans' outcome this is equivalent to bs4's truthiness test, since an
empty class list or id contains no keyword). -/
def infer_price (soup : Node) : Option String :=
  let classTags := (elemsUnder soup).filter (fun n => (getAttr n "class").isSome)
  match priceScan classTags (fun n => String.intercalate " " (classList n)) with
  | some r => some r
  | none =>
  let idTags := (elemsUnder soup).filter (fun n => (getAttr n "id").isSome)
  match priceScan idTags (fun n => (getAttr n "id").getD "") with
  | some r => some r
  | none =>
    match curSearch (getTextSpace soup).data with
    | some m => some (String.mk m.whole)
    | none => none

/-- The fixed ordered phrase list of `infer_availability`. -/
def availPhrases : List String :=
  ["in stock", "out of stock", "available", "pre-order", "preorder"]

/-- The window `text[max(0, idx - 30) : idx + 50].strip()` around a
match at character index `idx`. -/
def availWindow (text : List Char) (idx : Nat) : String :=
  String.mk (pyStripCL ((text.drop (idx - 30)).take (idx + 50 - (idx - 30))))

/-- The phrase loop of `infer_availability`: the *phrase list* is the
outer loop, so the first phrase in list order that occurs anywhere in
the text wins, regardless of occurrence positions. -/
def availLoop (text : List Char) : List String → Option String
  | [] => none
  | p :: ps =>
    match findSub text p.data with
    | some idx => some (availWindow text idx)
    | none => availLoop text ps

/-- `infer_availability`, lines 102-108 of `extractor.py`. -/
def infer_availability (soup : Node) : Option String :=
  availLoop (lowerCL (getTextSpace soup).data) availPhrases

/-! ## `extractor.py`: selector application and normalization -/

/-- The CSS selector engine (soupsieve's `select_one`), an external
collaborator: given the document and a selector string it either raises
(`Except.error`, e.g. malformed selector syntax) or returns the matched
element if any. -/
def SelectorEngine : Type := Node → String → Except String (Option Node)

/-- The per-field body of the `apply_selectors` loop: falsy selector
short-circuits to `None`; otherwise `select_one` runs under
`try/except`, a match yields `get_text(" ", strip=True)`, no match or
an exception yields `None`. -/
def evalSel (engine : SelectorEngine) (soup : Node) (sel : String) :
    Option String :=
  if sel.isEmpty then none
  else
    match engine soup sel with
    | Except.ok (some tag) => some (getTextSpace tag)
    | Except.ok none => none
    | Except.error _ => none

/-- The `results` accumulation of `apply_selectors`. -/
def apply_selectors_aux (engine : SelectorEngine) (soup : Node) :
    List (String × String) → List (String × Option String) →
    List (String × Option String)
  | [], results => results
  | (field, selector) :: rest, results =>
    apply_selectors_aux engine soup rest
      (dictSet results field (evalSel engine soup selector))

/-- `apply_selectors`, lines 111-122 of `extractor.py`. -/
def apply_selectors (engine : SelectorEngine) (soup : Node)
    (mapping : List (String × String)) : List (String × Option String) :=
  apply_selectors_aux engine soup mapping []

/-- `normalize_fields`, lines 125-148 of `extractor.py`.  The wall clock
read by `datetime.utcnow().isoformat()` is threaded in as `now`. -/
def normalize_fields (now : String) (raw : List (String × Option String)) :
    List (String × JVal) :=
  let price_raw := pyGet raw "price"
  let currency : Option Char :=
    match price_raw with
    | some s => if s.isEmpty then none else (curSearch s.data).map CurMatch.sym
    | none => none
  let amount : Option ℚ :=
    match price_raw with
    | some s =>
      if s.isEmpty then none
      else
        match numSearch s.data with
        | some m => pyFloat (stripCommas m)
        | none => none
    | none => none
  [("title", jOfStrOpt (pyGet raw "title")),
   ("price", JVal.jobj
     [("raw", jOfStrOpt price_raw),
      ("amount", jOfNumOpt amount),
      ("currency", jOfStrOpt (currency.map (fun c => String.mk [c])))]),
   ("availability", jOfStrOpt (pyGet raw "availability")),
   ("extraction_timestamp", JVal.jstr (now ++ "Z"))]

/-- `extract_from_html`, lines 151-167 of `extractor.py` (the
`BeautifulSoup(html, "lxml")` parse is the external step producing
`soup`).  Each heuristic runs exactly when the selected value is falsy
(`None` or the empty string). -/
def extract_from_html (engine : SelectorEngine) (soup : Node)
    (mapping : List (String × String)) (now : String) :
    List (String × JVal) :=
  let selected0 := apply_selectors engine soup mapping
  let selected1 :=
    if truthyOpt (pyGet selected0 "title") then selected0
    else dictSet selected0 "title" (infer_title soup)
  let selected2 :=
    if truthyOpt (pyGet selected1 "price") then selected1
    else dictSet selected1 "price" (infer_price soup)
  let selected3 :=
    if truthyOpt (pyGet selected2 "availability") then selected2
    else dictSet selected2 "availability" (infer_availability soup)
  normalize_fields now selected3

/-! ## `app.py`: optional LLM selector inference and merging

`llm_infer_selectors` (lines 170-249 of `extractor.py`): the Gemini
client call and `json.loads` are oracles.  `callModel` receives the
model identifier and the document-dependent part of the prompt (the
6000-character prefix of the markup, line 191); an `Except.error`
models any exception raised during that model's attempt (client
construction, network failure, missing `.text`).  `jsonLoads` models
`json.loads` on the fence-stripped text. -/

inductive PyVal where
  | vnone : PyVal
  | vbool (b : Bool) : PyVal
  | vnum (q : ℚ) : PyVal
  | vstr (s : String) : PyVal
  | vlist (xs : List PyVal) : PyVal
  | vdict (fields : List (String × PyVal)) : PyVal
deriving Repr

/-- Python truthiness on JSON-shaped values. -/
def pyTruthy : PyVal → Bool
  | PyVal.vnone => false
  | PyVal.vbool b => b
  | PyVal.vnum q => decide (q ≠ 0)
  | PyVal.vstr s => !s.isEmpty
  | PyVal.vlist xs => !xs.isEmpty
  | PyVal.vdict fs => !fs.isEmpty

def pyTruthyPV : Option PyVal → Bool
  | none => false
  | some v => pyTruthy v

/-- `hay.split(needle, 1)[1]` under the guarantee that `needle` occurs. -/
def splitAfter (hay needle : List Char) : List Char :=
  match findSub hay needle with
  | some i => hay.drop (i + needle.length)
  | none => []

/-- `hay.split(needle, 1)[0]`: the part before the first occurrence,
or the whole string when `needle` is absent. -/
def splitBefore (hay needle : List Char) : List Char :=
  match findSub hay needle with
  | some i => hay.take i
  | none => hay

/-- The code-fence cleanup of `llm_infer_selectors` (lines 226-229). -/
def stripFence (text : String) : String :=
  if containsSub text.data "```json".data then
    pyStripStr (String.mk (splitBefore (splitAfter text.data "```json".data) "```".data))
  else if containsSub text.data "```".data then
    pyStripStr (String.mk (splitBefore (splitAfter text.data "```".data) "```".data))
  else text

/-- The document-dependent part of the prompt: `html[:6000]` (the fixed
instruction text around it is constant and elided). -/
def promptFor (html : String) : String := String.mk (html.data.take 6000)

def models_to_try : List String :=
  ["gemini-2.5-flash", "gemini-2.0-flash", "gemini-1.5-flash", "gemini-1.5-pro"]

def expectedKeys : List String := ["title", "price", "availability"]

/-- One iteration body of the model loop (the `try` block, lines
205-239): any failure becomes `Except.error` with the message that the
code would record in `errors[model_name]`. -/
def attemptModel (callModel : String → String → Except String String)
    (jsonLoads : String → Except String PyVal) (html : String)
    (model : String) : Except String (List (String × PyVal)) :=
  match callModel model (promptFor html) with
  | Except.error e => Except.error e
  | Except.ok rtext =>
    let text := pyStripStr rtext
    if text.isEmpty then Except.error "Empty response from model"
    else
      match jsonLoads (stripFence text) with
      | Except.error e => Except.error e
      | Except.ok parsed =>
        match parsed with
        | PyVal.vdict fs =>
          if expectedKeys.any (fun k => (dget fs k).isSome) then Except.ok fs
          else Except.error "Invalid JSON structure"
        | _ => Except.error "Invalid JSON structure"

/-- The `for model_name in models_to_try` loop: first accepted result
short-circuits; every failure is appended to the `errors` record. -/
def llmLoop (callModel : String → String → Except String String)
    (jsonLoads : String → Except String PyVal) (html : String) :
    List String → List (String × String) →
    List (String × PyVal) × List (String × String)
  | [], errors => ([], errors)
  | m :: ms, errors =>
    match attemptModel callModel jsonLoads html m with
    | Except.ok fs => (fs, errors)
    | Except.error e => llmLoop callModel jsonLoads html ms (errors ++ [(m, e)])

/-- `llm_infer_selectors`.  `genaiOk` models the `google-genai` import
succeeding.  The returned pair is (parsed mapping, recorded per-model
failures); the Python function returns only the mapping and reports the
failures to `print`. -/
def llm_infer_selectors (genaiOk : Bool)
    (callModel : String → String → Except String String)
    (jsonLoads : String → Except String PyVal)
    (html : String) (api_key : String) :
    List (String × PyVal) × List (String × String) :=
  if api_key.isEmpty then ([], [])
  else if !genaiOk then ([], [])
  else llmLoop callModel jsonLoads html models_to_try []

/-- The selector-merge block of the Run Extraction handler
(`app.py` lines 147-158): `mapping = mapping_input.copy()` then, if the
inference result is truthy, for each of the three field keys overwrite
`mapping[key]` with `inferred[key]` exactly when `inferred.get(key)` is
truthy and `mapping.get(key)` is falsy.  The caller's `mapping_input`
(a dict of strings) is never touched; the merge happens on the copy. -/
def mergeStep (inferred : List (String × PyVal))
    (m : List (String × PyVal)) (key : String) : List (String × PyVal) :=
  if pyTruthyPV (dget inferred key) && !pyTruthyPV (dget m key) then
    dictSet m key ((dget inferred key).getD PyVal.vnone)
  else m

def mergeInferred (mapping_input : List (String × String))
    (inferred : List (String × PyVal)) : List (String × PyVal) :=
  let mapping := mapping_input.map (fun p => (p.1, PyVal.vstr p.2))
  if inferred.isEmpty then mapping
  else expectedKeys.foldl (mergeStep inferred) mapping

/-! ## Supporting lemmas: dictionaries -/

theorem dget_overwrite_self {α : Type} (k : String) (v : α) :
    ∀ d : List (String × α),
      dget (d.map (fun p => if p.1 = k then (k, v) else p)) k =
        if (d.find? (fun p => p.1 = k)).isSome then some v else none := by
  intro d
  induction d with
  | nil => simp [dget, List.find?]
  | cons p d ih =>
    by_cases hp : p.1 = k
    · simp [dget, List.find?, hp]
    · have hp' : (decide (p.1 = k)) = false := by simp [hp]
      simp only [List.map_cons, if_neg hp, dget, List.find?, hp'] at ih ⊢
      exact ih

theorem dget_overwrite_ne {α : Type} (k k' : String) (v : α) (hne : k' ≠ k) :
    ∀ d : List (String × α),
      dget (d.map (fun p => if p.1 = k then (k, v) else p)) k' = dget d k' := by
  intro d
  induction d with
  | nil => simp [dget, List.find?]
  | cons p d ih =>
    by_cases hp : p.1 = k
    · have hk : (decide (k = k')) = false :=
        decide_eq_false (fun h => hne h.symm)
      have hq : (decide (p.1 = k')) = false := by
        subst hp; exact hk
      simp only [List.map_cons, if_pos hp, dget, List.find?, hk, hq] at ih ⊢
      exact ih
    · by_cases hq : p.1 = k'
      · have hq' : (decide (p.1 = k')) = true := by simp [hq]
        simp [dget, List.find?, if_neg hp, hq']
      · have hq' : (decide (p.1 = k')) = false := by simp [hq]
        simp only [List.map_cons, if_neg hp, dget, List.find?, hq'] at ih ⊢
        exact ih

theorem dget_append_single_self {α : Type} (k : String) (v : α)
    (d : List (String × α)) (h : d.find? (fun p => p.1 = k) = none) :
    dget (d ++ [(k, v)]) k = some v := by
  simp [dget, List.find?_append, h, List.find?]

theorem dget_append_single_ne {α : Type} (k k' : String) (v : α)
    (hne : k' ≠ k) (d : List (String × α)) :
    dget (d ++ [(k, v)]) k' = dget d k' := by
  have hk : (decide (k = k')) = false :=
    decide_eq_false (fun h => hne h.symm)
  simp [dget, List.find?_append, List.find?, hk]

theorem dget_dictSet_self {α : Type} (d : List (String × α)) (k : String)
    (v : α) : dget (dictSet d k v) k = some v := by
  unfold dictSet
  split
  case isTrue h => simp [dget_overwrite_self, h]
  case isFalse h =>
    exact dget_append_single_self k v d (Option.not_isSome_iff_eq_none.mp h)

theorem dget_dictSet_ne {α : Type} (d : List (String × α)) (k k' : String)
    (v : α) (hne : k' ≠ k) : dget (dictSet d k v) k' = dget d k' := by
  unfold dictSet
  split
  · exact dget_overwrite_ne k k' v hne d
  · exact dget_append_single_ne k k' v hne d

theorem pyGet_dictSet_self (d : List (String × Option String)) (k : String)
    (v : Option String) : pyGet (dictSet d k v) k = v := by
  simp [pyGet, dget_dictSet_self]

theorem pyGet_dictSet_ne (d : List (String × Option String)) (k k' : String)
    (v : Option String) (hne : k' ≠ k) :
    pyGet (dictSet d k v) k' = pyGet d k' := by
  simp [pyGet, dget_dictSet_ne _ _ _ _ hne]

theorem dget_map_snd {α β : Type} (d : List (String × α)) (g : α → β)
    (k : String) :
    dget (d.map (fun p => (p.1, g p.2))) k = (dget d k).map g := by
  induction d with
  | nil => simp [dget, List.find?]
  | cons p d ih =>
    by_cases hp : p.1 = k
    · simp [dget, List.find?, hp]
    · have hp' : (decide (p.1 = k)) = false := by simp [hp]
      simp only [List.map_cons, dget, List.find?, hp'] at ih ⊢
      exact ih

/-! ## Supporting lemmas: `apply_selectors` -/

/-- The selector a Python dict iteration would leave in `results[k]`:
the value at the last occurrence of `k` in the association list (for a
genuine dict — unique keys — this is the entry for `k`). -/
def lastSel (mapping : List (String × String)) (k : String) : Option String :=
  (mapping.reverse.find? (fun p => p.1 = k)).map Prod.snd

theorem apply_selectors_aux_get (engine : SelectorEngine) (soup : Node) :
    ∀ (mapping : List (String × String)) (res : List (String × Option String))
      (k : String),
      dget (apply_selectors_aux engine soup mapping res) k =
        match lastSel mapping k with
        | some sel => some (evalSel engine soup sel)
        | none => dget res k := by
  intro mapping
  induction mapping with
  | nil => intro res k; simp [apply_selectors_aux, lastSel, List.find?]
  | cons fp rest ih =>
    intro res k
    obtain ⟨field, selector⟩ := fp
    simp only [apply_selectors_aux, ih, lastSel, List.reverse_cons,
      List.find?_append]
    cases hfind : rest.reverse.find? (fun p => decide (p.1 = k)) with
    | some q => simp
    | none =>
      by_cases hf : field = k
      · subst hf
        simp [List.find?, dget_dictSet_self]
      · have hf' : (decide (field = k)) = false := decide_eq_false hf
        simp [List.find?, hf', dget_dictSet_ne _ _ _ _ (fun h => hf h.symm)]

theorem apply_selectors_get (engine : SelectorEngine) (soup : Node)
    (mapping : List (String × String)) (k : String) :
    dget (apply_selectors engine soup mapping) k =
      (lastSel mapping k).map (evalSel engine soup) := by
  unfold apply_selectors
  rw [apply_selectors_aux_get]
  cases lastSel mapping k with
  | some sel => simp
  | none => simp [dget, List.find?]

theorem find?_filter_of_imp {α : Type} (p q : α → Bool)
    (himp : ∀ x, p x = true → q x = true) :
    ∀ l : List α, (l.filter q).find? p = l.find? p := by
  intro l
  induction l with
  | nil => simp
  | cons x l ih =>
    by_cases hq : q x = true
    · by_cases hp : p x = true
      · simp [List.filter, hq, List.find?, hp]
      · have hp' : p x = false := by simpa using hp
        simp [List.filter, hq, List.find?, hp', ih]
    · have hq' : q x = false := by simpa using hq
      have hp' : p x = false := by
        cases hpx : p x with
        | true => exact absurd (himp x hpx) (by simp [hq'])
        | false => rfl
      simp [List.filter, hq', List.find?, hp', ih]

/-- Restricting the selector map to the three record fields does not
change the selector applied for any of those fields. -/
theorem lastSel_filter_three (mapping : List (String × String)) (k : String)
    (hk : k = "title" ∨ k = "price" ∨ k = "availability") :
    lastSel (mapping.filter
      (fun p => p.1 == "title" || p.1 == "price" || p.1 == "availability")) k =
      lastSel mapping k := by
  unfold lastSel
  rw [← List.filter_reverse]
  rw [find?_filter_of_imp]
  intro x hx
  have hx' : x.1 = k := by simpa using hx
  rcases hk with h | h | h <;> subst h <;> simp [hx']

/-! ## Supporting lemmas: the numeric match is a substring -/

theorem matchNumAt_isPre (cs m : List Char) (h : matchNumAt cs = some m) :
    m <+: cs := by
  unfold matchNumAt at h
  set run := cs.takeWhile isNumClassCh with hrun
  set rest := cs.dropWhile isNumClassCh with hrest
  have hcs : run ++ rest = cs := List.takeWhile_append_dropWhile _ _
  set run2 := (run.reverse.dropWhile (fun c => !c.isDigit)).reverse with hrun2
  have hrun2pre : run2 <+: run := by
    have hs : run.reverse.dropWhile (fun c => !c.isDigit) <:+ run.reverse :=
      List.dropWhile_suffix _
    have hs2 : run2.reverse <:+ run.reverse := by
      rw [hrun2, List.reverse_reverse]; exact hs
    exact List.reverse_suffix.mp hs2
  have hrunpre : run <+: cs := ⟨rest, hcs⟩
  by_cases hempty : run2.isEmpty
  · simp [hempty] at h
  · simp only [hempty, Bool.false_eq_true, if_false] at h
    by_cases hlen : run2.length = run.length
    · simp only [hlen, if_true] at h
      cases hrest2 : rest with
      | nil =>
        rw [hrest2] at h
        rw [Option.some_inj] at h
        subst h
        exact hrunpre
      | cons c ds =>
        rw [hrest2] at h
        by_cases hc : c = '.'
        · simp only [hc, if_true] at h
          by_cases hfrac : (ds.takeWhile isDigitCh).isEmpty
          · simp only [hfrac, if_true] at h
            rw [Option.some_inj] at h
            subst h
            exact hrunpre
          · simp only [hfrac, Bool.false_eq_true, if_false] at h
            rw [Option.some_inj] at h
            subst h
            refine ⟨ds.dropWhile isDigitCh, ?_⟩
            have hds : ds.takeWhile isDigitCh ++ ds.dropWhile isDigitCh = ds :=
              List.takeWhile_append_dropWhile _ _
            calc (run ++ '.' :: ds.takeWhile isDigitCh) ++ ds.dropWhile isDigitCh
                = run ++ '.' :: (ds.takeWhile isDigitCh ++ ds.dropWhile isDigitCh) := by
                  simp [List.append_assoc]
              _ = run ++ '.' :: ds := by rw [hds]
              _ = run ++ rest := by rw [hrest2, hc]
              _ = cs := hcs
        · simp only [hc, if_false] at h
          rw [Option.some_inj] at h
          subst h
          exact hrunpre
    · simp only [hlen, if_false] at h
      rw [Option.some_inj] at h
      subst h
      exact hrun2pre.trans hrunpre

theorem numSearch_isInf (cs : List Char) (m : List Char)
    (h : numSearch cs = some m) : m <:+: cs := by
  induction cs with
  | nil => simp [numSearch] at h
  | cons c cs ih =>
    unfold numSearch at h
    cases hm : matchNumAt (c :: cs) with
    | some m0 =>
      rw [hm] at h
      cases h
      exact (matchNumAt_isPre _ _ hm).isInfix
    | none =>
      rw [hm] at h
      have hinf := ih h
      obtain ⟨s, t, hst⟩ := hinf
      exact ⟨c :: s, t, by rw [← hst]; simp⟩

/-! ## Supporting lemmas: `normalize_fields` field access -/

/-- Lookup inside the nested `price` object of a record. -/
def priceField (r : List (String × JVal)) (k : String) : Option JVal :=
  match dget r "price" with
  | some (JVal.jobj fs) => dget fs k
  | _ => none

theorem normalize_title (now : String) (raw : List (String × Option String)) :
    dget (normalize_fields now raw) "title" =
      some (jOfStrOpt (pyGet raw "title")) := rfl

theorem normalize_avail (now : String) (raw : List (String × Option String)) :
    dget (normalize_fields now raw) "availability" =
      some (jOfStrOpt (pyGet raw "availability")) := rfl

theorem normalize_price_raw (now : String)
    (raw : List (String × Option String)) :
    priceField (normalize_fields now raw) "raw" =
      some (jOfStrOpt (pyGet raw "price")) := rfl

theorem normalize_price_amount (now : String)
    (raw : List (String × Option String)) :
    priceField (normalize_fields now raw) "amount" =
      some (jOfNumOpt ((pyGet raw "price").bind (fun s =>
        if s.isEmpty then none
        else (numSearch s.data).bind (fun m => pyFloat (stripCommas m))))) := by
  cases hpr : pyGet raw "price" with
  | none => simp [priceField, normalize_fields, dget, List.find?, hpr]
  | some s =>
    by_cases he : s.isEmpty
    · simp [priceField, normalize_fields, dget, List.find?, hpr, he]
    · have he' : s.isEmpty = false := by simpa using he
      simp only [priceField, normalize_fields, dget, List.find?, hpr, he',
        Bool.false_eq_true, if_false, Option.some_bind]
      cases numSearch s.data <;> simp

theorem normalize_price_currency (now : String)
    (raw : List (String × Option String)) :
    priceField (normalize_fields now raw) "currency" =
      some (jOfStrOpt (((pyGet raw "price").bind (fun s =>
        if s.isEmpty then none
        else (curSearch s.data).map CurMatch.sym)).map (fun c => String.mk [c]))) := by
  cases hpr : pyGet raw "price" with
  | none => simp [priceField, normalize_fields, dget, List.find?, hpr]
  | some s =>
    by_cases he : s.isEmpty
    · simp [priceField, normalize_fields, dget, List.find?, hpr, he]
    · have he' : s.isEmpty = false := by simpa using he
      simp [priceField, normalize_fields, dget, List.find?, hpr, he']

/-! ## Claim C1 -/

/-- C1: `normalize_fields` never raises (it is total here): when the raw
price text is absent the whole price object is null; when it is present,
`currency` is group 1 of the first `CURRENCY_RE` match (null when none),
and `amount` is the first `NUMBER_RE` match de-comma'd and parsed, a
failed parse leaving `amount` null while `raw` and `currency` stay
populated.  Consequently `amount` is non-null only when `price.raw`
contains a parseable numeric substring (an infix of the raw text), and
the same holds of the record `extract_from_html` returns for an empty
selector map. -/
theorem C1_price_normalization :
    (∀ now raw, pyGet raw "price" = none →
        dget (normalize_fields now raw) "price" =
          some (JVal.jobj [("raw", JVal.jnull), ("amount", JVal.jnull),
            ("currency", JVal.jnull)]))
  ∧ (∀ now raw s, pyGet raw "price" = some s → s.isEmpty = false →
        priceField (normalize_fields now raw) "raw" = some (JVal.jstr s)
        ∧ priceField (normalize_fields now raw) "currency" =
            some (jOfStrOpt (((curSearch s.data).map CurMatch.sym).map
              (fun c => String.mk [c])))
        ∧ priceField (normalize_fields now raw) "amount" =
            some (jOfNumOpt ((numSearch s.data).bind
              (fun m => pyFloat (stripCommas m)))))
  ∧ (∀ now raw q, priceField (normalize_fields now raw) "amount" =
        some (JVal.jnum q) →
        ∃ s m, priceField (normalize_fields now raw) "raw" = some (JVal.jstr s)
          ∧ pyGet raw "price" = some s ∧ numSearch s.data = some m
          ∧ m <:+: s.data ∧ pyFloat (stripCommas m) = some q)
  ∧ (∀ engine soup now q,
        priceField (extract_from_html engine soup [] now) "amount" =
          some (JVal.jnum q) →
        ∃ s m,
          priceField (extract_from_html engine soup [] now) "raw" =
            some (JVal.jstr s)
          ∧ numSearch s.data = some m ∧ m <:+: s.data
          ∧ pyFloat (stripCommas m) = some q) := by
  have part3 : ∀ now raw q, priceField (normalize_fields now raw) "amount" =
      some (JVal.jnum q) →
      ∃ s m, priceField (normalize_fields now raw) "raw" = some (JVal.jstr s)
        ∧ pyGet raw "price" = some s ∧ numSearch s.data = some m
        ∧ m <:+: s.data ∧ pyFloat (stripCommas m) = some q := by
    intro now raw q h
    rw [normalize_price_amount, Option.some_inj] at h
    cases hpr : pyGet raw "price" with
    | none => rw [hpr] at h; simp [jOfNumOpt] at h
    | some s =>
      rw [hpr, Option.some_bind] at h
      by_cases hempty : s.isEmpty
      · simp [hempty, jOfNumOpt] at h
      · have hempty' : s.isEmpty = false := by simpa using hempty
        simp only [hempty', Bool.false_eq_true, if_false] at h
        cases hns : numSearch s.data with
        | none => rw [hns] at h; simp [jOfNumOpt] at h
        | some m =>
          rw [hns, Option.some_bind] at h
          cases hpf : pyFloat (stripCommas m) with
          | none => rw [hpf] at h; simp [jOfNumOpt] at h
          | some q0 =>
            rw [hpf] at h
            have hq : q0 = q := by simpa [jOfNumOpt] using h
            refine ⟨s, m, ?_, rfl, hns, numSearch_isInf _ _ hns,
              by rw [hpf, hq]⟩
            rw [normalize_price_raw, hpr]; rfl
  refine ⟨?_, ?_, part3, ?_⟩
  · intro now raw h
    simp [normalize_fields, dget, List.find?, h, jOfStrOpt, jOfNumOpt]
  · intro now raw s hs hempty
    refine ⟨?_, ?_, ?_⟩
    · rw [normalize_price_raw, hs]; rfl
    · rw [normalize_price_currency, hs]
      simp [hempty]
    · rw [normalize_price_amount, hs]
      simp [hempty]
  · intro engine soup now q h
    obtain ⟨s, m, hraw, hpr, hns, hinf, hpf⟩ := part3 now _ q h
    exact ⟨s, m, hraw, hns, hinf, hpf⟩

/-! ## Supporting lemmas: concrete decimal values

`Rat` arithmetic does not reduce definitionally, so concrete `amount`
values are computed through these lemmas instead of `rfl`. -/

theorem pyFloat_int (cs : List Char) (h : cs.all (fun c => c.isDigit) = true)
    (hne : cs ≠ []) : pyFloat cs = some (digitsVal cs) := by
  have hmem : ∀ c ∈ cs, c.isDigit = true := by
    intro c hc; exact List.all_eq_true.mp h c hc
  have hall : cs.all (fun c => c.isDigit || c = '.') = true := by
    apply List.all_eq_true.mpr
    intro c hc; simp [hmem c hc]
  have hany : cs.any (fun c => c.isDigit) = true := by
    cases cs with
    | nil => exact absurd rfl hne
    | cons c cs => exact List.any_eq_true.mpr ⟨c, by simp, hmem c (by simp)⟩
  have hdot : ('.' : Char) ∉ cs := by
    intro hmem2
    have := hmem '.' hmem2
    simp [Char.isDigit] at this
  have hcount : cs.count '.' = 0 := List.count_eq_zero.mpr hdot
  have hdrop : cs.dropWhile isDigitCh = [] := by
    apply List.dropWhile_eq_nil_iff.mpr
    intro c hc; exact hmem c hc
  have htake : cs.takeWhile isDigitCh = cs := by
    have := List.takeWhile_append_dropWhile (p := isDigitCh) (l := cs)
    rw [hdrop, List.append_nil] at this
    exact this
  unfold pyFloat
  rw [hall, hany, hcount]
  simp [htake, hdrop, digitsVal]

theorem digitsVal_five : digitsVal ['5'] = 5 := by
  simp only [digitsVal, List.foldl]
  rw [show ('5'.toNat - 48 : Nat) = 5 from rfl]
  norm_num

theorem digitsVal_1049 : digitsVal ['1', '0', '4', '9'] = 1049 := by
  simp only [digitsVal, List.foldl]
  rw [show ('1'.toNat - 48 : Nat) = 1 from rfl,
    show ('0'.toNat - 48 : Nat) = 0 from rfl,
    show ('4'.toNat - 48 : Nat) = 4 from rfl,
    show ('9'.toNat - 48 : Nat) = 9 from rfl]
  norm_num

theorem pyFloat_five : pyFloat (stripCommas ['5']) = some 5 := by
  rw [show stripCommas ['5'] = ['5'] from rfl,
    pyFloat_int ['5'] rfl (by simp), digitsVal_five]

theorem pyFloat_1049 : pyFloat (stripCommas ['1', '0', '4', '9']) = some 1049 := by
  rw [show stripCommas ['1', '0', '4', '9'] = ['1', '0', '4', '9'] from rfl,
    pyFloat_int ['1', '0', '4', '9'] rfl (by simp), digitsVal_1049]


/-- A selector engine for runs with no usable selectors: every lookup
misses (with an empty selector map it is never consulted at all). -/
def noEngine : SelectorEngine := fun _ _ => Except.ok none

/-- Document whose body text is `only $5 here`. -/
def docDollar : Node :=
  Node.elem "[document]" [] [Node.elem "html" [] [Node.elem "body" []
    [Node.elem "p" [] [Node.text "only $5 here"]]]]

/-- Witness for C1 at a concrete document: the record extracted from
`docDollar` has `amount = 5`, and the theorem exhibits the parseable
numeric substring of its `price.raw`. -/
theorem C1_price_normalization_witness :
    ∃ s m,
      priceField (extract_from_html noEngine docDollar [] "T") "raw" =
        some (JVal.jstr s)
      ∧ numSearch s.data = some m ∧ m <:+: s.data
      ∧ pyFloat (stripCommas m) = some 5 :=
  C1_price_normalization.2.2.2 noEngine docDollar "T" 5 (by
    have h : priceField (extract_from_html noEngine docDollar [] "T") "amount" =
        some (jOfNumOpt (pyFloat (stripCommas ['5']))) := rfl
    rw [h, pyFloat_five]
    rfl)

/-! ## Claim C9 -/

/-- C9: for fixed document, selector engine and selector map, the
extraction result is a deterministic function of those inputs — two
calls agree on every field; the only input that can change between two
calls on the same document is the wall-clock reading behind
`extraction_timestamp` (the explicit `now` argument), and a different
`now` leaves `title`, `price` and `availability` unchanged. -/
theorem C9_deterministic_modulo_timestamp
    (engine : SelectorEngine) (soup : Node)
    (mapping : List (String × String)) (now1 now2 : String) :
    dget (extract_from_html engine soup mapping now1) "title" =
      dget (extract_from_html engine soup mapping now2) "title"
    ∧ dget (extract_from_html engine soup mapping now1) "price" =
      dget (extract_from_html engine soup mapping now2) "price"
    ∧ dget (extract_from_html engine soup mapping now1) "availability" =
      dget (extract_from_html engine soup mapping now2) "availability"
    ∧ extract_from_html engine soup mapping now1 =
      extract_from_html engine soup mapping now1 :=
  ⟨rfl, rfl, rfl, rfl⟩

/-! ## Claim C10 -/

/-- One heuristic-fallback step preserves agreement of the two selected
dictionaries on the three record fields. -/
theorem pyGet_fallback_step (s s2 : List (String × Option String))
    (fld : String) (v : Option String)
    (hfld : fld = "title" ∨ fld = "price" ∨ fld = "availability")
    (h : ∀ k, (k = "title" ∨ k = "price" ∨ k = "availability") →
      pyGet s k = pyGet s2 k) :
    ∀ k, (k = "title" ∨ k = "price" ∨ k = "availability") →
      pyGet (if truthyOpt (pyGet s fld) then s else dictSet s fld v) k =
      pyGet (if truthyOpt (pyGet s2 fld) then s2 else dictSet s2 fld v) k := by
  intro k hk
  rw [h fld hfld]
  by_cases hcond : truthyOpt (pyGet s2 fld)
  · simp only [hcond, if_true]
    exact h k hk
  · have hcond' : truthyOpt (pyGet s2 fld) = false := by simpa using hcond
    simp only [hcond', Bool.false_eq_true, if_false]
    by_cases hkf : k = fld
    · subst hkf
      rw [pyGet_dictSet_self, pyGet_dictSet_self]
    · rw [pyGet_dictSet_ne _ _ _ _ hkf, pyGet_dictSet_ne _ _ _ _ hkf]
      exact h k hk

/-- `normalize_fields` reads its input only through the three record
fields. -/
theorem normalize_fields_congr (now : String)
    (r r2 : List (String × Option String))
    (h : ∀ k, (k = "title" ∨ k = "price" ∨ k = "availability") →
      pyGet r k = pyGet r2 k) :
    normalize_fields now r = normalize_fields now r2 := by
  have ht := h "title" (Or.inl rfl)
  have hp := h "price" (Or.inr (Or.inl rfl))
  have ha := h "availability" (Or.inr (Or.inr rfl))
  simp only [normalize_fields, ht, hp, ha]

/-- C10: for every document and selector map — including maps with extra
keys or with some of the three field keys missing — the record has
exactly the keys `title`, `price`, `availability`,
`extraction_timestamp`; the price object has exactly the keys `raw`,
`amount`, `currency`; and entries of the selector map beyond the three
field keys have no effect on the record at all (the output equals the
output for the map filtered down to the three field keys). -/
theorem C10_record_shape (engine : SelectorEngine) (soup : Node)
    (mapping : List (String × String)) (now : String) :
    (extract_from_html engine soup mapping now).map Prod.fst =
      ["title", "price", "availability", "extraction_timestamp"]
    ∧ (∃ fs, dget (extract_from_html engine soup mapping now) "price" =
        some (JVal.jobj fs) ∧ fs.map Prod.fst = ["raw", "amount", "currency"])
    ∧ extract_from_html engine soup mapping now =
        extract_from_html engine soup
          (mapping.filter (fun p =>
            p.1 == "title" || p.1 == "price" || p.1 == "availability")) now := by
  refine ⟨rfl, ⟨_, rfl, rfl⟩, ?_⟩
  have h0 : ∀ k, (k = "title" ∨ k = "price" ∨ k = "availability") →
      pyGet (apply_selectors engine soup mapping) k =
      pyGet (apply_selectors engine soup (mapping.filter (fun p =>
        p.1 == "title" || p.1 == "price" || p.1 == "availability"))) k := by
    intro k hk
    unfold pyGet
    rw [apply_selectors_get, apply_selectors_get,
      lastSel_filter_three mapping k hk]
  have h1 := pyGet_fallback_step _ _ "title" (infer_title soup)
    (Or.inl rfl) h0
  have h2 := pyGet_fallback_step _ _ "price" (infer_price soup)
    (Or.inr (Or.inl rfl)) h1
  have h3 := pyGet_fallback_step _ _ "availability" (infer_availability soup)
    (Or.inr (Or.inr rfl)) h2
  exact normalize_fields_congr now _ _ h3

/-! ## Claim C3 -/

/-- Document whose visible text mentions a pre-order before the phrase
`in stock`. -/
def docAvail : Node :=
  Node.elem "[document]" [] [Node.elem "html" [] [Node.elem "body" []
    [Node.elem "p" [] [Node.text
      "Pre-order today. Currently this product is in stock at our store, ships immediately from warehouse."]]]]

/-- Document with none of the availability phrases. -/
def docNoAvail : Node :=
  Node.elem "[document]" [] [Node.elem "html" [] [Node.elem "body" []
    [Node.elem "p" [] [Node.text "hello world"]]]]

/-- C3: the availability scan iterates the fixed phrase list in the
outer loop (`in stock`, `out of stock`, `available`, `pre-order`,
`preorder`), so whenever `in stock` occurs anywhere in the lowercased
visible text the result is the trimmed window
`text[max(0, idx-30) : idx+50]` at the first `in stock` occurrence,
even when a later-listed phrase appears earlier in the text; in
`docAvail`, where `pre-order` appears at position 0 and `in stock`
later, the returned window is the one centred on `in stock` (80
characters around index 43), not the `pre-order` window; with no phrase
present the result is null. -/
theorem C3_availability_phrase_priority :
    (∀ soup,
      containsSub (lowerCL (getTextSpace soup).data) "in stock".data = true →
      infer_availability soup =
        some (availWindow (lowerCL (getTextSpace soup).data)
          ((findSub (lowerCL (getTextSpace soup).data) "in stock".data).getD 0)))
  ∧ infer_availability docAvail =
      some "ay. currently this product is in stock at our store, ships immediately from ware"
  ∧ findSub (lowerCL (getTextSpace docAvail).data) "pre-order".data = some 0
  ∧ findSub (lowerCL (getTextSpace docAvail).data) "in stock".data = some 43
  ∧ infer_availability docNoAvail = none := by
  refine ⟨?_, by rfl, by rfl, by rfl, by rfl⟩
  intro soup h
  obtain ⟨idx, hidx⟩ := Option.isSome_iff_exists.mp h
  simp [infer_availability, availPhrases, availLoop, hidx]

/-- Witness for C3's universal part at `docAvail`. -/
theorem C3_availability_phrase_priority_witness :
    containsSub (lowerCL (getTextSpace docAvail).data) "in stock".data = true
    ∧ infer_availability docAvail =
        some (availWindow (lowerCL (getTextSpace docAvail).data)
          ((findSub (lowerCL (getTextSpace docAvail).data)
            "in stock".data).getD 0)) :=
  ⟨by rfl, C3_availability_phrase_priority.1 docAvail (by rfl)⟩

/-! ## Claim C6 -/

/-- Document with an OpenGraph title meta tag and an `h1`. -/
def docOg : Node :=
  Node.elem "[document]" [] [Node.elem "html" []
    [Node.elem "head" []
      [Node.elem "meta" [("property", "og:title"), ("content", "Widget X")] []],
     Node.elem "body" [] [Node.elem "h1" [] [Node.text "Other"]]]]

/-- Document with a Twitter-card title meta tag and an `h1`. -/
def docTw : Node :=
  Node.elem "[document]" [] [Node.elem "html" []
    [Node.elem "head" []
      [Node.elem "meta" [("name", "twitter:title"), ("content", "TW Card")] []],
     Node.elem "body" [] [Node.elem "h1" [] [Node.text "Other"]]]]

/-- Document with a `title` element and an `h1`. -/
def docTitleTag : Node :=
  Node.elem "[document]" [] [Node.elem "html" []
    [Node.elem "head" [] [Node.elem "title" [] [Node.text "Page T"]],
     Node.elem "body" [] [Node.elem "h1" [] [Node.text "Other"]]]]

/-- Document whose first `h1` has empty text, with a non-empty `h2` and
`h3` after it. -/
def docHeads : Node :=
  Node.elem "[document]" [] [Node.elem "html" [] [Node.elem "body" []
    [Node.elem "h1" [] [],
     Node.elem "h2" [] [Node.text "Second"],
     Node.elem "h3" [] [Node.text "Third"]]]]

/-- Document with only an `h3`. -/
def docH3 : Node :=
  Node.elem "[document]" [] [Node.elem "html" [] [Node.elem "body" []
    [Node.elem "h3" [] [Node.text "Only h3"]]]]

/-- Document with no title source at all. -/
def docBare : Node :=
  Node.elem "[document]" [] [Node.elem "html" [] [Node.elem "body" []
    [Node.elem "p" [] [Node.text "nothing here"]]]]

/-- C6: the title heuristic prefers the OpenGraph meta content, then the
Twitter-card meta content, then the `title` element's text, then the
first non-empty text among the first `h1`, `h2`, `h3`, and returns null
when none matches; in particular the claim's example document (OpenGraph
meta `Widget X` plus `<h1>Other</h1>`) yields title `Widget X` from
`extract` with no selector supplied. -/
theorem C6_title_priority :
    dget (extract_from_html noEngine docOg [] "T") "title" =
      some (JVal.jstr "Widget X")
    ∧ infer_title docOg = some "Widget X"
    ∧ infer_title docTw = some "TW Card"
    ∧ infer_title docTitleTag = some "Page T"
    ∧ infer_title docHeads = some "Second"
    ∧ infer_title docH3 = some "Only h3"
    ∧ infer_title docBare = none :=
  ⟨rfl, rfl, rfl, rfl, rfl, rfl, rfl⟩

/-! ## Claim C2 -/

/-- The claim's example document: `<span class="price">₹1049</span>`. -/
def docRupee : Node :=
  Node.elem "[document]" [] [Node.elem "html" [] [Node.elem "body" []
    [Node.elem "span" [("class", "price")] [Node.text "₹1049"]]]]

/-- Class-keyword element, id-keyword element and plain body text each
carrying a currency amount; the class scan must win. -/
def docPriceCls : Node :=
  Node.elem "[document]" [] [Node.elem "html" [] [Node.elem "body" []
    [Node.elem "p" [] [Node.text "only $9 here"],
     Node.elem "div" [("id", "cost")] [Node.text "$7"],
     Node.elem "div" [("class", "price")] [Node.text "$5"]]]]

/-- No class keyword matches; the id scan must win over the body-text
fallback. -/
def docPriceId : Node :=
  Node.elem "[document]" [] [Node.elem "html" [] [Node.elem "body" []
    [Node.elem "p" [] [Node.text "only $9 here"],
     Node.elem "div" [("id", "cost")] [Node.text "$7"],
     Node.elem "div" [("class", "nice")] [Node.text "$5"]]]]

/-- Only the body-text fallback can match. -/
def docPriceTxt : Node :=
  Node.elem "[document]" [] [Node.elem "html" [] [Node.elem "body" []
    [Node.elem "p" [] [Node.text "only $9 here"]]]]

/-- Body text `pay ${11 now`: a brace right after the currency symbol. -/
def docBrace : Node :=
  Node.elem "[document]" [] [Node.elem "html" [] [Node.elem "body" []
    [Node.elem "p" [] [Node.text "pay $\x7b11 now"]]]]

/-- Modelled from the claim's words, for comparison with the code: "a
currency pattern is exactly one symbol from {$, €, £, ₹} followed by
optional whitespace and a digit group with optional thousands separators
and an optional decimal fraction".  Read as generously as possible:
after the symbol and at most one whitespace character, every character
must be a digit, a comma or a dot. -/
def claimedCurrencyShape (s : String) : Bool :=
  match s.data with
  | [] => false
  | c :: rest =>
    isCurrencySym c &&
    (let num := match rest with
      | [] => rest
      | w :: rest2 => if isPySpace w then rest2 else rest
     !num.isEmpty && num.all (fun d => d.isDigit || d = ',' || d = '.'))

/-- C2 counterexample: the numeric part of `CURRENCY_RE` is written
`[\d{1,3},]*\d+(\.\d+)?` — the `{1,3}` sits inside a character class —
so brace characters are accepted literally.  On a document whose text
contains `${11` the heuristic returns the match `${11`, which is not of
the claimed symbol + digit-group-with-separators shape under any
reading. -/
theorem C2_counterexample_brace_match :
    infer_price docBrace = some "$\x7b11"
    ∧ claimedCurrencyShape "$\x7b11" = false :=
  ⟨rfl, rfl⟩

/-- C2 amended: the strategy order is as claimed — class-attribute scan,
then id-attribute scan, then whole-text fallback, null when nothing
matches — and the claim's example behaves as claimed
(`<span class="price">₹1049</span>` extracts to raw `₹1049`, amount
1049, currency `₹`); but the matched "number" is a run over digits,
commas and the literal characters `{`, `}` ending in a digit, with an
optional `.`-digits fraction, because the `{1,3}` quantifier was placed
inside a character class. -/
theorem C2_price_heuristic_amended :
    dget (extract_from_html noEngine docRupee [] "T") "price" =
      some (JVal.jobj [("raw", JVal.jstr "₹1049"),
        ("amount", JVal.jnum 1049), ("currency", JVal.jstr "₹")])
    ∧ infer_price docPriceCls = some "$5"
    ∧ infer_price docPriceId = some "$7"
    ∧ infer_price docPriceTxt = some "$9"
    ∧ infer_price docBare = none
    ∧ infer_price docBrace = some "$\x7b11" := by
  refine ⟨?_, rfl, rfl, rfl, rfl, rfl⟩
  have h : dget (extract_from_html noEngine docRupee [] "T") "price" =
      some (JVal.jobj [("raw", JVal.jstr "₹1049"),
        ("amount", jOfNumOpt (pyFloat (stripCommas ['1', '0', '4', '9']))),
        ("currency", JVal.jstr "₹")]) := rfl
  rw [h, pyFloat_1049]
  rfl

/-! ## Claim C4 -/

/-- An `h1` with a class and no text at all. -/
def h1Empty : Node := Node.elem "h1" [("class", "x")] []

/-- Document containing the empty `h1` and a non-empty `h2`. -/
def docEmptyH1 : Node :=
  Node.elem "[document]" [] [Node.elem "html" [] [Node.elem "body" []
    [h1Empty, Node.elem "h2" [] [Node.text "Fallback"]]]]

/-- A selector engine on which the selector `h1.x` matches the empty
`h1` element. -/
def engEmptyH1 : SelectorEngine := fun _ sel =>
  if sel = "h1.x" then Except.ok (some h1Empty) else Except.ok none

/-- C4 counterexample: the fallback test in `extract_from_html` is
truthiness (`if not selected.get(...)`), not a null test.  With the
selector `h1.x` supplied for `title` and matching an element, the
selector applier leaves the field non-null (the empty string), yet the
title heuristic still runs and the record's title is the heuristic's
value `Fallback`, not the selector-extracted text `""`. -/
theorem C4_counterexample_empty_match :
    engEmptyH1 docEmptyH1 "h1.x" = Except.ok (some h1Empty)
    ∧ apply_selectors engEmptyH1 docEmptyH1 [("title", "h1.x")] =
        [("title", some "")]
    ∧ infer_title docEmptyH1 = some "Fallback"
    ∧ dget (extract_from_html engEmptyH1 docEmptyH1 [("title", "h1.x")] "T")
        "title" = some (JVal.jstr "Fallback")
    ∧ ("Fallback" : String) ≠ "" :=
  ⟨rfl, rfl, rfl, rfl, by simp⟩

/-- One fallback step leaves other fields' values unchanged. -/
theorem pyGet_fallback_ne (s : List (String × Option String)) (cond : Bool)
    (fld k : String) (v : Option String) (h : k ≠ fld) :
    pyGet (if cond then s else dictSet s fld v) k = pyGet s k := by
  cases cond
  · simp only [Bool.false_eq_true, if_false]
    exact pyGet_dictSet_ne _ _ _ _ h
  · simp

/-- C4 amended: a field's heuristic runs exactly when the value the
selector applier left for it is falsy (null or the empty string), not
when it is null.  When the selector-applied value is a non-empty string
the heuristic's output never reaches the record, which is built from
the selector-extracted text; when it is falsy the record field is
exactly the heuristic's output. -/
theorem C4_selector_precedence_amended
    (engine : SelectorEngine) (soup : Node)
    (mapping : List (String × String)) (now : String) :
    (∀ v, pyGet (apply_selectors engine soup mapping) "title" = some v →
      v.isEmpty = false →
      dget (extract_from_html engine soup mapping now) "title" =
        some (JVal.jstr v))
    ∧ (∀ v, pyGet (apply_selectors engine soup mapping) "price" = some v →
      v.isEmpty = false →
      priceField (extract_from_html engine soup mapping now) "raw" =
        some (JVal.jstr v))
    ∧ (∀ v, pyGet (apply_selectors engine soup mapping) "availability" = some v →
      v.isEmpty = false →
      dget (extract_from_html engine soup mapping now) "availability" =
        some (JVal.jstr v))
    ∧ (truthyOpt (pyGet (apply_selectors engine soup mapping) "title") = false →
      dget (extract_from_html engine soup mapping now) "title" =
        some (jOfStrOpt (infer_title soup)))
    ∧ (truthyOpt (pyGet (apply_selectors engine soup mapping) "price") = false →
      priceField (extract_from_html engine soup mapping now) "raw" =
        some (jOfStrOpt (infer_price soup)))
    ∧ (truthyOpt (pyGet (apply_selectors engine soup mapping) "availability")
        = false →
      dget (extract_from_html engine soup mapping now) "availability" =
        some (jOfStrOpt (infer_availability soup))) := by
  set s0 := apply_selectors engine soup mapping with hs0
  have hexp : extract_from_html engine soup mapping now =
      normalize_fields now
        (let s1 := if truthyOpt (pyGet s0 "title") then s0
          else dictSet s0 "title" (infer_title soup)
         let s2 := if truthyOpt (pyGet s1 "price") then s1
          else dictSet s1 "price" (infer_price soup)
         if truthyOpt (pyGet s2 "availability") then s2
          else dictSet s2 "availability" (infer_availability soup)) := rfl
  refine ⟨?_, ?_, ?_, ?_, ?_, ?_⟩
  · intro v hv hvne
    have hcond : truthyOpt (pyGet s0 "title") = true := by
      rw [hv]; simp [truthyOpt, hvne]
    rw [hexp, normalize_title]
    simp only [hcond, if_true]
    rw [pyGet_fallback_ne _ _ _ _ _ (by simp),
      pyGet_fallback_ne _ _ _ _ _ (by simp), hv]
    rfl
  · intro v hv hvne
    have hcond : truthyOpt (pyGet s0 "price") = true := by
      rw [hv]; simp [truthyOpt, hvne]
    rw [hexp, normalize_price_raw]
    simp only
    rw [pyGet_fallback_ne _ _ _ _ _ (by simp)]
    by_cases ht : truthyOpt (pyGet s0 "title")
    · simp only [ht, if_true, hcond]
      rw [hv]
      rfl
    · have ht' : truthyOpt (pyGet s0 "title") = false := by simpa using ht
      have hget : pyGet (dictSet s0 "title" (infer_title soup)) "price" =
          pyGet s0 "price" := pyGet_dictSet_ne _ _ _ _ (by simp)
      simp only [ht', Bool.false_eq_true, if_false, hget, hcond, if_true]
      rw [hv]
      rfl
  · intro v hv hvne
    have hcond0 : truthyOpt (pyGet s0 "availability") = true := by
      rw [hv]; simp [truthyOpt, hvne]
    rw [hexp, normalize_avail]
    simp only
    have h1 : pyGet (if truthyOpt (pyGet s0 "title") then s0
        else dictSet s0 "title" (infer_title soup)) "availability" =
        pyGet s0 "availability" := pyGet_fallback_ne _ _ _ _ _ (by simp)
    set s1 := if truthyOpt (pyGet s0 "title") then s0
      else dictSet s0 "title" (infer_title soup) with hs1
    have h2 : pyGet (if truthyOpt (pyGet s1 "price") then s1
        else dictSet s1 "price" (infer_price soup)) "availability" =
        pyGet s1 "availability" := pyGet_fallback_ne _ _ _ _ _ (by simp)
    set s2 := if truthyOpt (pyGet s1 "price") then s1
      else dictSet s1 "price" (infer_price soup) with hs2
    have hcond2 : truthyOpt (pyGet s2 "availability") = true := by
      rw [h2, h1, hcond0]
    simp only [hcond2, if_true]
    rw [h2, h1, hv]
    rfl
  · intro hcond
    rw [hexp, normalize_title]
    simp only [hcond, Bool.false_eq_true, if_false]
    rw [pyGet_fallback_ne _ _ _ _ _ (by simp),
      pyGet_fallback_ne _ _ _ _ _ (by simp), pyGet_dictSet_self]
  · intro hcond
    rw [hexp, normalize_price_raw]
    simp only
    rw [pyGet_fallback_ne _ _ _ _ _ (by simp)]
    by_cases ht : truthyOpt (pyGet s0 "title")
    · simp only [ht, if_true, hcond, Bool.false_eq_true, if_false]
      rw [pyGet_dictSet_self]
    · have ht' : truthyOpt (pyGet s0 "title") = false := by simpa using ht
      have hget : pyGet (dictSet s0 "title" (infer_title soup)) "price" =
          pyGet s0 "price" := pyGet_dictSet_ne _ _ _ _ (by simp)
      simp only [ht', Bool.false_eq_true, if_false, hget, hcond]
      rw [pyGet_dictSet_self]
  · intro hcond0
    rw [hexp, normalize_avail]
    simp only
    have h1 : pyGet (if truthyOpt (pyGet s0 "title") then s0
        else dictSet s0 "title" (infer_title soup)) "availability" =
        pyGet s0 "availability" := pyGet_fallback_ne _ _ _ _ _ (by simp)
    set s1 := if truthyOpt (pyGet s0 "title") then s0
      else dictSet s0 "title" (infer_title soup) with hs1
    have h2 : pyGet (if truthyOpt (pyGet s1 "price") then s1
        else dictSet s1 "price" (infer_price soup)) "availability" =
        pyGet s1 "availability" := pyGet_fallback_ne _ _ _ _ _ (by simp)
    set s2 := if truthyOpt (pyGet s1 "price") then s1
      else dictSet s1 "price" (infer_price soup) with hs2
    have hcond2 : truthyOpt (pyGet s2 "availability") = false := by
      rw [h2, h1, hcond0]
    simp only [hcond2, Bool.false_eq_true, if_false]
    rw [pyGet_dictSet_self]

/-- A paragraph node with text `Widget`. -/
def pWidget : Node := Node.elem "p" [] [Node.text "Widget"]

/-- Engine on which the selector `t` matches `pWidget`. -/
def engWidget : SelectorEngine := fun _ sel =>
  if sel = "t" then Except.ok (some pWidget) else Except.ok none

/-- Witness for the amended C4 at a concrete run: the selector value
`Widget` is truthy, so the record title is the selector text, and the
price field (no selector) is the heuristic's output. -/
theorem C4_selector_precedence_amended_witness :
    dget (extract_from_html engWidget docBare [("title", "t")] "T") "title" =
      some (JVal.jstr "Widget")
    ∧ priceField (extract_from_html engWidget docBare [("title", "t")] "T")
        "raw" = some (jOfStrOpt (infer_price docBare)) :=
  ⟨(C4_selector_precedence_amended engWidget docBare [("title", "t")] "T").1
      "Widget" rfl rfl,
   (C4_selector_precedence_amended engWidget docBare [("title", "t")] "T").2.2.2.2.1
      rfl⟩

/-! ## Claim C5 -/

/-- A paragraph whose single text node has an inner run of three
spaces. -/
def pInnerWs : Node := Node.elem "p" [] [Node.text "a   b"]

/-- Document containing `pInnerWs`. -/
def docInnerWs : Node :=
  Node.elem "[document]" [] [Node.elem "html" [] [Node.elem "body" []
    [pInnerWs]]]

/-- Engine on which the selector `p` matches `pInnerWs`. -/
def engInnerWs : SelectorEngine := fun _ sel =>
  if sel = "p" then Except.ok (some pInnerWs) else Except.ok none

/-- Modelled from the spec's words (§4.1), for comparison with the
code: "collapsing runs of whitespace to single spaces, trimming
ends". -/
def specCollapseWs (s : String) : String :=
  String.intercalate " " (splitWs s)

/-- C5 counterexample: `get_text(" ", strip=True)` strips each text
segment and joins segments with single spaces, but does not touch
whitespace inside a segment.  On an element whose single text node is
`a   b` the extracted value keeps the three-space run, so it differs
from the claimed collapse to `a b`. -/
theorem C5_counterexample_inner_whitespace :
    engInnerWs docInnerWs "p" = Except.ok (some pInnerWs)
    ∧ apply_selectors engInnerWs docInnerWs [("title", "p")] =
        [("title", some "a   b")]
    ∧ nodeText pInnerWs = "a   b"
    ∧ specCollapseWs "a   b" = "a b"
    ∧ ("a   b" : String) ≠ "a b" :=
  ⟨rfl, rfl, rfl, rfl, by simp⟩

/-- C5 amended: `apply_selectors` is total (never raises) and fully
per-field: the result for key `k` is exactly the evaluation of the
selector stored for `k` — absent field: absent; empty selector: null
without consulting the engine; engine exception or no match: null; a
match: the element's text segments each trimmed, empties dropped,
joined with single spaces (whitespace runs inside one text segment are
preserved), which for `pInnerWs` is `a   b`. -/
theorem C5_apply_selectors_amended :
    (∀ engine soup mapping k,
      dget (apply_selectors engine soup mapping) k =
        (lastSel mapping k).map (evalSel engine soup))
    ∧ (∀ engine soup (sel : String) t, sel.isEmpty = false →
        engine soup sel = Except.ok (some t) →
        evalSel engine soup sel = some (getTextSpace t))
    ∧ (∀ engine soup (sel : String) msg, sel.isEmpty = false →
        engine soup sel = Except.error msg →
        evalSel engine soup sel = none)
    ∧ (∀ engine soup (sel : String), sel.isEmpty = true →
        evalSel engine soup sel = none)
    ∧ getTextSpace pInnerWs = "a   b" := by
  refine ⟨apply_selectors_get, ?_, ?_, ?_, rfl⟩
  · intro engine soup sel t hsel heng
    simp [evalSel, hsel, heng]
  · intro engine soup sel msg hsel heng
    simp [evalSel, hsel, heng]
  · intro engine soup sel hsel
    simp [evalSel, hsel]

/-- Witness for the amended C5 at a concrete run. -/
theorem C5_apply_selectors_amended_witness :
    dget (apply_selectors engInnerWs docInnerWs [("title", "p")]) "title" =
      (lastSel [("title", "p")] "title").map (evalSel engInnerWs docInnerWs)
    ∧ evalSel engInnerWs docInnerWs "p" = some (getTextSpace pInnerWs)
    ∧ evalSel engInnerWs docInnerWs "" = none :=
  ⟨C5_apply_selectors_amended.1 engInnerWs docInnerWs [("title", "p")] "title",
   C5_apply_selectors_amended.2.1 engInnerWs docInnerWs "p" pInnerWs rfl rfl,
   C5_apply_selectors_amended.2.2.2.1 engInnerWs docInnerWs "" rfl⟩

/-! ## Claim C7 -/

/-- The message recorded for a failed attempt. -/
def errOf {α : Type} : Except String α → String
  | Except.error e => e
  | Except.ok _ => ""

def isOkE {α : Type} : Except String α → Bool
  | Except.ok _ => true
  | Except.error _ => false

/-- C7: the suggestion client (1) returns an empty result immediately
when the credential is absent, for every backend behaviour (so no
backend call can influence it); (2) accepts a model's response only if
the fence-stripped text parses as a dict containing at least one of the
keys `title`, `price`, `availability`; (3) when every model in a list
fails, it returns an empty mapping together with every failure recorded
as (model, message) in order; (4) the first accepted model
short-circuits: the models after it are arbitrary and unconsulted, and
the failures before it are all recorded; (5) end to end, with a present
credential and every configured model failing, the result is empty with
all four models' failures recorded. -/
theorem C7_suggestion_client_fallback :
    (∀ genaiOk callModel jsonLoads html,
      llm_infer_selectors genaiOk callModel jsonLoads html "" = ([], []))
  ∧ (∀ callModel jsonLoads html m fs,
      attemptModel callModel jsonLoads html m = Except.ok fs →
      ∃ rtext, callModel m (promptFor html) = Except.ok rtext
        ∧ (pyStripStr rtext).isEmpty = false
        ∧ jsonLoads (stripFence (pyStripStr rtext)) =
            Except.ok (PyVal.vdict fs)
        ∧ expectedKeys.any (fun k => (dget fs k).isSome) = true)
  ∧ (∀ callModel jsonLoads html ms errs,
      (∀ m ∈ ms, isOkE (attemptModel callModel jsonLoads html m) = false) →
      llmLoop callModel jsonLoads html ms errs =
        ([], errs ++ ms.map (fun m =>
          (m, errOf (attemptModel callModel jsonLoads html m)))))
  ∧ (∀ callModel jsonLoads html ms1 m ms2 errs fs,
      (∀ m2 ∈ ms1, isOkE (attemptModel callModel jsonLoads html m2) = false) →
      attemptModel callModel jsonLoads html m = Except.ok fs →
      llmLoop callModel jsonLoads html (ms1 ++ m :: ms2) errs =
        (fs, errs ++ ms1.map (fun m2 =>
          (m2, errOf (attemptModel callModel jsonLoads html m2)))))
  ∧ (∀ callModel jsonLoads html (key : String), key.isEmpty = false →
      (∀ m ∈ models_to_try,
        isOkE (attemptModel callModel jsonLoads html m) = false) →
      llm_infer_selectors true callModel jsonLoads html key =
        ([], models_to_try.map (fun m =>
          (m, errOf (attemptModel callModel jsonLoads html m))))) := by
  have part3 : ∀ callModel jsonLoads html ms errs,
      (∀ m ∈ ms, isOkE (attemptModel callModel jsonLoads html m) = false) →
      llmLoop callModel jsonLoads html ms errs =
        ([], errs ++ ms.map (fun m =>
          (m, errOf (attemptModel callModel jsonLoads html m)))) := by
    intro callModel jsonLoads html ms
    induction ms with
    | nil => intro errs h; simp [llmLoop]
    | cons m ms ih =>
      intro errs h
      have hm : isOkE (attemptModel callModel jsonLoads html m) = false :=
        h m (by simp)
      cases hatt : attemptModel callModel jsonLoads html m with
      | ok fs => rw [hatt] at hm; simp [isOkE] at hm
      | error e =>
        have hrest : ∀ m2 ∈ ms,
            isOkE (attemptModel callModel jsonLoads html m2) = false := by
          intro m2 hm2; exact h m2 (by simp [hm2])
        simp only [llmLoop, hatt]
        rw [ih _ hrest]
        simp [hatt, errOf]
  refine ⟨?_, ?_, part3, ?_, ?_⟩
  · intro genaiOk callModel jsonLoads html
    rfl
  · intro callModel jsonLoads html m fs hatt
    unfold attemptModel at hatt
    cases hcall : callModel m (promptFor html) with
    | error e => rw [hcall] at hatt; simp at hatt
    | ok rtext =>
      rw [hcall] at hatt
      by_cases hstrip : (pyStripStr rtext).isEmpty
      · simp [hstrip] at hatt
      · have hstrip' : (pyStripStr rtext).isEmpty = false := by simpa using hstrip
        simp only [hstrip', Bool.false_eq_true, if_false] at hatt
        cases hload : jsonLoads (stripFence (pyStripStr rtext)) with
        | error e => rw [hload] at hatt; simp at hatt
        | ok parsed =>
          rw [hload] at hatt
          cases parsed with
          | vdict fs0 =>
            by_cases hany : expectedKeys.any (fun k => (dget fs0 k).isSome)
            · simp only [hany, if_true] at hatt
              rw [Except.ok.injEq] at hatt
              subst hatt
              exact ⟨rtext, rfl, hstrip', hload, hany⟩
            · simp [hany] at hatt
          | vnone => simp at hatt
          | vbool b => simp at hatt
          | vnum q => simp at hatt
          | vstr s => simp at hatt
          | vlist xs => simp at hatt
  · intro callModel jsonLoads html ms1
    induction ms1 with
    | nil =>
      intro m ms2 errs fs hfail hok
      simp [llmLoop, hok]
    | cons m2 ms1 ih =>
      intro m ms2 errs fs hfail hok
      have hm2 : isOkE (attemptModel callModel jsonLoads html m2) = false :=
        hfail m2 (by simp)
      cases hatt : attemptModel callModel jsonLoads html m2 with
      | ok fs2 => rw [hatt] at hm2; simp [isOkE] at hm2
      | error e =>
        have hrest : ∀ m3 ∈ ms1,
            isOkE (attemptModel callModel jsonLoads html m3) = false := by
          intro m3 hm3; exact hfail m3 (by simp [hm3])
        have hstep : llmLoop callModel jsonLoads html
            ((m2 :: ms1) ++ m :: ms2) errs =
            llmLoop callModel jsonLoads html (ms1 ++ m :: ms2)
              (errs ++ [(m2, e)]) := by
          show llmLoop callModel jsonLoads html
            (m2 :: (ms1 ++ m :: ms2)) errs = _
          simp only [llmLoop, hatt]
        rw [hstep, ih m ms2 _ fs hrest hok]
        simp [hatt, errOf]
  · intro callModel jsonLoads html key hkey hfail
    have hloop := part3 callModel jsonLoads html models_to_try [] hfail
    unfold llm_infer_selectors
    rw [hkey]
    simpa using hloop

/-- A backend oracle whose newest model fails with a network error and
whose second model answers `SEL`. -/
def callW : String → String → Except String String := fun m _ =>
  if m = "gemini-2.5-flash" then Except.error "network down"
  else Except.ok "SEL"

/-- A `json.loads` oracle: `SEL` parses to `{"title": "h1"}`, anything
else fails. -/
def loadsW : String → Except String PyVal := fun s =>
  if s = "SEL" then Except.ok (PyVal.vdict [("title", PyVal.vstr "h1")])
  else Except.error "bad json"

/-- A backend oracle on which every model fails. -/
def callFail : String → String → Except String String :=
  fun _ _ => Except.error "boom"

/-- Witness for C7 at concrete oracles: the first model's failure is
recorded and the second model's accepted mapping is returned (the
remaining models unconsulted); with an absent key the result is empty;
with every model failing, all four failures are recorded. -/
theorem C7_suggestion_client_fallback_witness :
    llm_infer_selectors true callW loadsW "" "k" =
      ([("title", PyVal.vstr "h1")], [("gemini-2.5-flash", "network down")])
    ∧ llm_infer_selectors true callW loadsW "" "" = ([], [])
    ∧ llm_infer_selectors true callFail loadsW "" "k" =
      ([], [("gemini-2.5-flash", "boom"), ("gemini-2.0-flash", "boom"),
        ("gemini-1.5-flash", "boom"), ("gemini-1.5-pro", "boom")]) := by
  refine ⟨?_, C7_suggestion_client_fallback.1 true callW loadsW "", ?_⟩
  · have h := C7_suggestion_client_fallback.2.2.2.1 callW loadsW ""
      ["gemini-2.5-flash"] "gemini-2.0-flash"
      ["gemini-1.5-flash", "gemini-1.5-pro"] []
      [("title", PyVal.vstr "h1")]
      (by
        intro m2 hm2
        simp only [List.mem_singleton] at hm2
        subst hm2
        rfl)
      rfl
    calc llm_infer_selectors true callW loadsW "" "k"
        = llmLoop callW loadsW "" models_to_try [] := rfl
      _ = llmLoop callW loadsW ""
            (["gemini-2.5-flash"] ++ "gemini-2.0-flash" ::
              ["gemini-1.5-flash", "gemini-1.5-pro"]) [] := rfl
      _ = ([("title", PyVal.vstr "h1")],
            [] ++ [("gemini-2.5-flash",
              errOf (attemptModel callW loadsW "" "gemini-2.5-flash"))]) := by
          rw [h]; rfl
      _ = ([("title", PyVal.vstr "h1")],
            [("gemini-2.5-flash", "network down")]) := rfl
  · have h := C7_suggestion_client_fallback.2.2.2.2 callFail loadsW "" "k"
      rfl
      (by
        intro m hm
        fin_cases hm <;> rfl)
    rw [h]
    rfl

/-! ## Claim C8 -/

/-- A truthy value already stored for `k` survives any number of merge
steps: the step at `k` is disabled by its own guard, steps at other
keys cannot touch `k`. -/
theorem mergeFoldl_preserve (inferred : List (String × PyVal)) :
    ∀ (keys : List String) (m : List (String × PyVal)) (k : String)
      (v : PyVal), dget m k = some v → pyTruthy v = true →
      dget (keys.foldl (mergeStep inferred) m) k = some v := by
  intro keys
  induction keys with
  | nil => intro m k v h _; exact h
  | cons key keys ih =>
    intro m k v h hv
    simp only [List.foldl_cons]
    apply ih
    · unfold mergeStep
      by_cases hkk : key = k
      · subst hkk
        have hcur : pyTruthyPV (dget m key) = true := by
          rw [h]; exact hv
        simp [hcur]
        exact h
      · split
        · rw [dget_dictSet_ne _ _ _ _ (fun hh => hkk hh.symm)]
          exact h
        · exact h
    · exact hv

/-- Merge steps only ever write at keys from the processed list. -/
theorem mergeFoldl_untouched (inferred : List (String × PyVal)) :
    ∀ (keys : List String) (m : List (String × PyVal)) (k : String),
      k ∉ keys →
      dget (keys.foldl (mergeStep inferred) m) k = dget m k := by
  intro keys
  induction keys with
  | nil => intro m k _; rfl
  | cons key keys ih =>
    intro m k hk
    have hk1 : k ≠ key := fun h => hk (by simp [h])
    have hk2 : k ∉ keys := fun h => hk (by simp [h])
    simp only [List.foldl_cons]
    rw [ih _ _ hk2]
    unfold mergeStep
    split
    · exact dget_dictSet_ne _ _ _ _ hk1
    · rfl

/-- A merge step at another key reads and writes nothing at `k`. -/
theorem mergeStep_ne (inferred : List (String × PyVal))
    (m : List (String × PyVal)) (key k : String) (hk : k ≠ key) :
    dget (mergeStep inferred m key) k = dget m k := by
  unfold mergeStep
  split
  · exact dget_dictSet_ne _ _ _ _ hk
  · rfl

/-- C8: when the suggestion client returns a mapping, the merge happens
on a derived copy of the caller's map (`mapping_input` is consumed only
through the `.copy()`-modelling `map`); a caller-supplied non-empty
selector is never overwritten by a suggestion; a suggested truthy value
is written exactly for fields whose caller entry is empty (shown for
the first and last of the three processed keys); and keys outside the
three record fields are never written. -/
theorem C8_suggestion_merge_precedence :
    (∀ (mi : List (String × String)) inferred k v,
      dget mi k = some v → v.isEmpty = false →
      dget (mergeInferred mi inferred) k = some (PyVal.vstr v))
  ∧ (∀ (mi : List (String × String)) inferred k,
      k ∉ expectedKeys →
      dget (mergeInferred mi inferred) k = (dget mi k).map PyVal.vstr)
  ∧ (∀ (t p a : String) inferred,
      inferred ≠ [] → t.isEmpty = true →
      pyTruthyPV (dget inferred "title") = true →
      dget (mergeInferred [("title", t), ("price", p), ("availability", a)]
        inferred) "title" = some ((dget inferred "title").getD PyVal.vnone))
  ∧ (∀ (t p a : String) inferred,
      inferred ≠ [] → a.isEmpty = true →
      pyTruthyPV (dget inferred "availability") = true →
      dget (mergeInferred [("title", t), ("price", p), ("availability", a)]
        inferred) "availability" =
        some ((dget inferred "availability").getD PyVal.vnone)) := by
  refine ⟨?_, ?_, ?_, ?_⟩
  · intro mi inferred k v h hv
    unfold mergeInferred
    have hmap : dget (mi.map (fun p => (p.1, PyVal.vstr p.2))) k =
        some (PyVal.vstr v) := by
      rw [dget_map_snd, h]; rfl
    split
    · exact hmap
    · exact mergeFoldl_preserve inferred expectedKeys _ k (PyVal.vstr v) hmap
        (by simp [pyTruthy, hv])
  · intro mi inferred k hk
    unfold mergeInferred
    split
    · exact dget_map_snd mi PyVal.vstr k
    · rw [mergeFoldl_untouched inferred expectedKeys _ k hk]
      exact dget_map_snd mi PyVal.vstr k
  · intro t p a inferred hinf ht htruthy
    unfold mergeInferred
    have hne : inferred.isEmpty = false := by
      cases inferred with
      | nil => exact absurd rfl hinf
      | cons x xs => rfl
    rw [hne]
    simp only [Bool.false_eq_true, if_false, List.map_cons, List.map_nil]
    set m0 : List (String × PyVal) := [("title", PyVal.vstr t),
      ("price", PyVal.vstr p), ("availability", PyVal.vstr a)] with hm0
    have hstep1 : mergeStep inferred m0 "title" =
        dictSet m0 "title" ((dget inferred "title").getD PyVal.vnone) := by
      unfold mergeStep
      have hcur : pyTruthyPV (dget m0 "title") = false := by
        simp [hm0, dget, List.find?, pyTruthyPV, pyTruthy, ht]
      rw [htruthy, hcur]
      simp
    calc dget (List.foldl (mergeStep inferred) m0 expectedKeys) "title"
        = dget (List.foldl (mergeStep inferred)
            (mergeStep inferred m0 "title") ["price", "availability"])
            "title" := by
          simp only [expectedKeys, List.foldl_cons]
      _ = dget (mergeStep inferred m0 "title") "title" :=
          mergeFoldl_untouched inferred ["price", "availability"] _ "title"
            (by simp)
      _ = some ((dget inferred "title").getD PyVal.vnone) := by
          rw [hstep1, dget_dictSet_self]
  · intro t p a inferred hinf ha htruthy
    unfold mergeInferred
    have hne : inferred.isEmpty = false := by
      cases inferred with
      | nil => exact absurd rfl hinf
      | cons x xs => rfl
    rw [hne]
    simp only [Bool.false_eq_true, if_false, List.map_cons, List.map_nil]
    set m0 : List (String × PyVal) := [("title", PyVal.vstr t),
      ("price", PyVal.vstr p), ("availability", PyVal.vstr a)] with hm0
    set m2 : List (String × PyVal) :=
      mergeStep inferred (mergeStep inferred m0 "title") "price" with hm2
    have hget2 : dget m2 "availability" = some (PyVal.vstr a) := by
      rw [hm2, mergeStep_ne inferred _ "price" _ (by simp),
        mergeStep_ne inferred _ "title" _ (by simp)]
      simp [hm0, dget, List.find?]
    have hstep3 : mergeStep inferred m2 "availability" =
        dictSet m2 "availability"
          ((dget inferred "availability").getD PyVal.vnone) := by
      unfold mergeStep
      have hcur : pyTruthyPV (dget m2 "availability") = false := by
        rw [hget2]; simp [pyTruthyPV, pyTruthy, ha]
      rw [htruthy, hcur]
      simp
    calc dget (List.foldl (mergeStep inferred) m0 expectedKeys) "availability"
        = dget (mergeStep inferred m2 "availability") "availability" := by
          simp only [expectedKeys, List.foldl_cons, List.foldl_nil, hm2]
      _ = some ((dget inferred "availability").getD PyVal.vnone) := by
          rw [hstep3, dget_dictSet_self]

/-- Witness for C8 at concrete maps: a caller-supplied `h1` for title
survives a competing suggestion, and a suggested selector fills an
empty caller entry. -/
theorem C8_suggestion_merge_precedence_witness :
    dget (mergeInferred
      [("title", "h1"), ("price", ""), ("availability", "")]
      [("title", PyVal.vstr "h1.t"), ("price", PyVal.vstr "span.p")])
      "title" = some (PyVal.vstr "h1")
    ∧ dget (mergeInferred
      [("title", ""), ("price", ".p"), ("availability", "")]
      [("title", PyVal.vstr "h1.t")]) "title" = some (PyVal.vstr "h1.t") := by
  constructor
  · exact C8_suggestion_merge_precedence.1
      [("title", "h1"), ("price", ""), ("availability", "")]
      [("title", PyVal.vstr "h1.t"), ("price", PyVal.vstr "span.p")]
      "title" "h1" rfl rfl
  · have h := C8_suggestion_merge_precedence.2.2.1 "" ".p" ""
      [("title", PyVal.vstr "h1.t")] (by simp) rfl rfl
    rw [h]
    rfl
